import Mathlib

/-!
Verification of the multi-strategy trading orchestrator.

Shallow embedding conventions: Python `Decimal`/numeric values are modelled
as rationals (ℚ); the trailing `float(...)` casts in the source are treated
as exact (IEEE representation error is outside the model).  Python's
`Decimal.__floordiv__` truncates toward zero, which `ratTrunc` reproduces.
Stateful methods become pure functions from the relevant state to the new
state; exchange/network responses are passed in as explicit arguments.
-/

namespace Mina

/-- Truncation toward zero on ℚ, the semantics of Python `Decimal // 1`
composed with scaling: `Decimal.__floordiv__` returns the integer part of
the true quotient, truncating toward zero (not flooring). -/
def ratTrunc (x : ℚ) : ℤ :=
  if 0 ≤ x then ⌊x⌋ else ⌈x⌉

/-- `BaseBot.quantize_qty` from `multi_bot_manager.py`:
`if step == 0: return float(qty); q = (qty // step) * step; return float(q)`. -/
def quantize_qty (qty step : ℚ) : ℚ :=
  if step = 0 then qty else (ratTrunc (qty / step) : ℚ) * step

lemma ratTrunc_intCast (n : ℤ) : ratTrunc (n : ℚ) = n := by
  unfold ratTrunc
  split <;> simp

lemma ratTrunc_of_nonneg {x : ℚ} (h : 0 ≤ x) : ratTrunc x = ⌊x⌋ := by
  simp [ratTrunc, h]

/-- C1 (amended): for `0 ≤ v` and `step > 0`, `quantize_qty v step` is at
most `v`, is an exact integer multiple of `step`, and differs from `v` by
less than `step`.  (The nonnegativity hypothesis is forced: `Decimal //`
truncates toward zero, so negative values round up, see the
counterexample.) -/
theorem C1_quantize_floor_props (v step : ℚ) (hv : 0 ≤ v) (hs : 0 < step) :
    quantize_qty v step ≤ v ∧
    (∃ k : ℤ, quantize_qty v step = k * step) ∧
    v - quantize_qty v step < step := by
  have hs0 : step ≠ 0 := ne_of_gt hs
  have hq : (0 : ℚ) ≤ v / step := div_nonneg hv (le_of_lt hs)
  have hval : quantize_qty v step = (⌊v / step⌋ : ℚ) * step := by
    simp [quantize_qty, hs0, ratTrunc_of_nonneg hq]
  refine ⟨?_, ⟨⌊v / step⌋, hval⟩, ?_⟩
  · rw [hval]
    have h1 : (⌊v / step⌋ : ℚ) ≤ v / step := Int.floor_le _
    calc (⌊v / step⌋ : ℚ) * step ≤ (v / step) * step :=
          mul_le_mul_of_nonneg_right h1 (le_of_lt hs)
      _ = v := div_mul_cancel₀ v hs0
  · rw [hval]
    have h2 : v / step < (⌊v / step⌋ : ℚ) + 1 := Int.lt_floor_add_one _
    have h3 : v < ((⌊v / step⌋ : ℚ) + 1) * step := by
      calc v = (v / step) * step := (div_mul_cancel₀ v hs0).symm
        _ < ((⌊v / step⌋ : ℚ) + 1) * step :=
          mul_lt_mul_of_pos_right h2 hs
    nlinarith

/-- Witness for C1 at the spec's own example: quantizing 0.0037 with step
0.001 yields 0.003, which is ≤ 0.0037, a multiple of 0.001, and within one
step of the request. -/
theorem C1_quantize_floor_props_witness :
    quantize_qty (37 / 10000) (1 / 1000) ≤ 37 / 10000 ∧
    (∃ k : ℤ, quantize_qty (37 / 10000) (1 / 1000) = k * (1 / 1000)) ∧
    (37 / 10000 : ℚ) - quantize_qty (37 / 10000) (1 / 1000) < 1 / 1000 :=
  C1_quantize_floor_props (37 / 10000) (1 / 1000) (by norm_num) (by norm_num)

/-- C1 counterexample: at `v = -1/2`, `step = 1` the result is 0, which is
not ≤ v: `Decimal //` truncates toward zero rather than flooring, so the
claimed bound `result ≤ v` fails for negative values. -/
theorem C1_counterexample :
    quantize_qty (-(1 / 2)) 1 = 0 ∧ ¬ quantize_qty (-(1 / 2)) 1 ≤ -(1 / 2) := by
  have h : quantize_qty (-(1 / 2)) 1 = 0 := by
    norm_num [quantize_qty, ratTrunc]
  exact ⟨h, by rw [h]; norm_num⟩

/-- C8: quantization is idempotent for every step size (including 0 and
negative steps): re-quantizing a quantized value returns it unchanged. -/
theorem C8_quantize_idempotent (v step : ℚ) :
    quantize_qty (quantize_qty v step) step = quantize_qty v step := by
  by_cases hs : step = 0
  · simp [quantize_qty, hs]
  · simp only [quantize_qty, hs, if_false]
    rw [mul_div_cancel_right₀ _ hs, ratTrunc_intCast]

/-! ## `BaseBot.safe_order` — the retry wrapper

`safe_order(fn, *args, retries=3, backoff=1)` loops `for i in range(retries)`,
returns `fn(...)` on success, and on ANY exception logs and sleeps
`backoff * (i+1)` before the next iteration; after the loop it returns `None`.
The environment is modelled by `fn : ℕ → Except ErrKind α`, giving the outcome
of the call on each attempt (0-based).  A `RetryRun` records the returned
value, how many times `fn` was invoked, and the sleep durations in order. -/

/-- Kinds of failure an exchange call can raise.  The source's `except
Exception` does not inspect the kind; the distinction exists to state the
claim about transient vs. validation failures. -/
inductive ErrKind
  | transient
  | validation
  | rejection
deriving DecidableEq

/-- Observable trace of one `safe_order` run: the value returned, the number
of calls to `fn`, and the slept backoff durations in chronological order. -/
structure RetryRun (α : Type) where
  result : Option α
  calls : ℕ
  sleeps : List ℕ
deriving DecidableEq

/-- The loop body of `safe_order`: `i` is the current attempt index, the
second argument the remaining iterations of `range(retries)`. -/
def safe_order_aux {α : Type} (fn : ℕ → Except ErrKind α) (backoff : ℕ) :
    ℕ → ℕ → RetryRun α
  | _, 0 => ⟨none, 0, []⟩
  | i, r + 1 =>
    match fn i with
    | .ok a => ⟨some a, 1, []⟩
    | .error _ =>
      let rest := safe_order_aux fn backoff (i + 1) r
      ⟨rest.result, rest.calls + 1, backoff * (i + 1) :: rest.sleeps⟩

/-- `BaseBot.safe_order` (the source defaults are `retries=3, backoff=1`). -/
def safe_order {α : Type} (fn : ℕ → Except ErrKind α) (retries backoff : ℕ) :
    RetryRun α :=
  safe_order_aux fn backoff 0 retries

lemma safe_order_aux_calls_le {α : Type} (fn : ℕ → Except ErrKind α)
    (backoff : ℕ) : ∀ i r, (safe_order_aux fn backoff i r).calls ≤ r := by
  intro i r
  induction r generalizing i with
  | zero => simp [safe_order_aux]
  | succ r ih =>
    simp only [safe_order_aux]
    cases fn i with
    | ok a => simp
    | error e => simpa using Nat.succ_le_succ (ih (i + 1))

lemma cons_backoff_range (backoff i r : ℕ) :
    backoff * (i + 1) :: (List.range r).map (fun j => backoff * (i + 1 + j + 1))
      = (List.range (r + 1)).map (fun j => backoff * (i + j + 1)) := by
  rw [List.range_succ_eq_map, List.map_cons, List.map_map]
  have hfg : (fun j : ℕ => backoff * (i + 1 + j + 1))
      = (fun j : ℕ => backoff * (i + j + 1)) ∘ Nat.succ := by
    funext j
    simp only [Function.comp, Nat.succ_eq_add_one]
    ring
  rw [hfg]

lemma safe_order_aux_all_fail {α : Type} (fn : ℕ → Except ErrKind α)
    (backoff : ℕ) : ∀ r i, (∀ j, j < r → (fn (i + j)).toOption = none) →
    safe_order_aux fn backoff i r =
      ⟨none, r, (List.range r).map (fun j => backoff * (i + j + 1))⟩ := by
  intro r
  induction r with
  | zero => intro i _; simp [safe_order_aux]
  | succ r ih =>
    intro i hfail
    have h0 : (fn i).toOption = none := by simpa using hfail 0 (Nat.succ_pos r)
    simp only [safe_order_aux]
    cases hfn : fn i with
    | ok a => rw [hfn] at h0; simp [Except.toOption] at h0
    | error e =>
      have hrest := ih (i + 1) (fun j hj => by
        have := hfail (j + 1) (Nat.succ_lt_succ hj)
        simpa [Nat.add_assoc, Nat.add_comm 1 j] using this)
      rw [hrest]
      simp only [RetryRun.mk.injEq, true_and]
      exact cons_backoff_range backoff i r

lemma safe_order_aux_first_ok {α : Type} (fn : ℕ → Except ErrKind α)
    (backoff : ℕ) : ∀ k i r a, k < r → fn (i + k) = .ok a →
    (∀ j, j < k → (fn (i + j)).toOption = none) →
    safe_order_aux fn backoff i r =
      ⟨some a, k + 1, (List.range k).map (fun j => backoff * (i + j + 1))⟩ := by
  intro k
  induction k with
  | zero =>
    intro i r a hk hok _
    cases r with
    | zero => exact absurd hk (Nat.not_lt_zero 0)
    | succ r =>
      simp only [safe_order_aux]
      rw [show i + 0 = i from rfl] at hok
      rw [hok]
      simp
  | succ k ih =>
    intro i r a hk hok hfail
    cases r with
    | zero => exact absurd hk (Nat.not_lt_zero (k + 1))
    | succ r =>
      have h0 : (fn i).toOption = none := by simpa using hfail 0 (Nat.succ_pos k)
      simp only [safe_order_aux]
      cases hfn : fn i with
      | ok a0 => rw [hfn] at h0; simp [Except.toOption] at h0
      | error e =>
        have hok' : fn (i + 1 + k) = .ok a := by
          rw [show i + 1 + k = i + (k + 1) by ring]; exact hok
        have hfail' : ∀ j, j < k → (fn (i + 1 + j)).toOption = none := by
          intro j hj
          have := hfail (j + 1) (Nat.succ_lt_succ hj)
          simpa [Nat.add_assoc, Nat.add_comm 1 j] using this
        rw [ih (i + 1) r a (Nat.lt_of_succ_lt_succ hk) hok' hfail']
        simp only [RetryRun.mk.injEq, true_and]
        exact cons_backoff_range backoff i k

/-- C2 (amended): the wrapper makes at most `retries` calls; when every
attempt raises — whatever the kind of failure, since the source catches bare
`Exception` — it calls exactly `retries` times, sleeps
`backoff * (attempt index + 1)` after each failed attempt (including the
last), and returns `None`; when attempt `k` is the first to succeed it makes
exactly `k + 1` calls and returns the call's value.  The source does not
distinguish transient from validation failures inside the wrapper (see the
counterexample); quantization/notional validation happens at the call sites
before the wrapper is invoked, so a validation failure there makes no
exchange call at all. -/
theorem C2_safe_order_retry_behavior {α : Type} (fn : ℕ → Except ErrKind α)
    (retries backoff : ℕ) :
    (safe_order fn retries backoff).calls ≤ retries ∧
    ((∀ i, i < retries → (fn i).toOption = none) →
      safe_order fn retries backoff =
        ⟨none, retries, (List.range retries).map (fun i => backoff * (i + 1))⟩) ∧
    (∀ k a, k < retries → fn k = .ok a →
      (∀ j, j < k → (fn j).toOption = none) →
      safe_order fn retries backoff =
        ⟨some a, k + 1, (List.range k).map (fun j => backoff * (j + 1))⟩) := by
  refine ⟨safe_order_aux_calls_le fn backoff 0 retries, ?_, ?_⟩
  · intro hfail
    have h := safe_order_aux_all_fail fn backoff retries 0
      (fun j hj => by simpa using hfail j hj)
    simpa [safe_order] using h
  · intro k a hk hok hfail
    have h := safe_order_aux_first_ok fn backoff k 0 retries a hk
      (by simpa using hok) (fun j hj => by simpa using hfail j hj)
    simpa [safe_order] using h

/-- Environment where every attempt fails with a transient error. -/
def fnAlwaysTransient : ℕ → Except ErrKind Unit := fun _ => .error .transient

/-- Witness for C2 with the source defaults `retries=3, backoff=1` and an
always-failing transient environment: three calls, sleeps 1, 2, 3, result
`None`. -/
theorem C2_safe_order_retry_behavior_witness :
    safe_order fnAlwaysTransient 3 1 = ⟨none, 3, [1, 2, 3]⟩ := by
  have h := (C2_safe_order_retry_behavior fnAlwaysTransient 3 1).2.1
    (by intro i _; rfl)
  simpa using h

/-- Environment whose first call raises a deterministic validation-style
failure and whose second call succeeds. -/
def fnValidationThenOk : ℕ → Except ErrKind Unit := fun i =>
  if i = 0 then .error .validation else .ok ()

/-- C2 counterexample: the claim says validation failures are never retried
and fail without any exchange retry, but the wrapper catches every
exception alike: after a validation-kind failure on attempt 1 it sleeps and
calls the exchange again (2 calls, and the run even succeeds). -/
theorem C2_counterexample :
    (safe_order fnValidationThenOk 3 1).calls = 2 ∧
    (safe_order fnValidationThenOk 3 1).result = some () ∧
    (safe_order fnValidationThenOk 3 1).sleeps = [1] :=
  ⟨rfl, rfl, rfl⟩

/-! ## Exchange responses, order records, and the market buy/sell sites

`NewListingBot.analyze_new_listing` / `HighVolumeBot.place_high_volume_buy`
(buy sites) and `NewListingBot.place_sell_order` /
`HighVolumeBot.place_high_volume_sell` (sell sites) parse the exchange
response dict into an order record.  The response is modelled by
`ExchangeOrder`; the two bots' sites are line-for-line identical modulo the
reason string and balance fraction, so one definition models each pair. -/

/-- One entry of the `fills` array of a market-order response. -/
structure Fill where
  price : ℚ
  qty : ℚ
deriving DecidableEq

/-- The exchange's response to a market order, as read by the source
(`orderId`, `status`, `fills`). -/
structure ExchangeOrder where
  orderId : ℕ
  status : String
  fills : List Fill
deriving DecidableEq

/-- Order side. -/
inductive Side
  | BUY
  | SELL
deriving DecidableEq

/-- An append-only order-history record as built at the four market-order
sites (timestamp and bot name omitted: they are wall-clock/identity data). -/
structure MgrOrder where
  orderId : ℕ
  symbol : String
  side : Side
  quantity : ℚ
  price : ℚ
  status : String
  reason : String
  profit : Option ℚ
deriving DecidableEq

/-- An open position of the new-listing / high-volume bots. -/
structure MgrPosition where
  symbol : String
  entry_price : ℚ
  quantity : ℚ
  take_profit : ℚ
  stop_loss : ℚ
deriving DecidableEq

/-- `float(order.get('fills', [])[0].get('price')) if order.get('fills')
else initial_price` — the BUY sites' fill-price extraction, falling back to
the price used to size the request. -/
def buy_fill_price (order : ExchangeOrder) (request_price : ℚ) : ℚ :=
  match order.fills with
  | [] => request_price
  | f :: _ => f.price

/-- `float(order.get('fills', [])[0].get('price')) if order.get('fills')
else 0` — the SELL sites' fill-price extraction, falling back to 0. -/
def sell_fill_price (order : ExchangeOrder) : ℚ :=
  match order.fills with
  | [] => 0
  | f :: _ => f.price

/-- The order record appended by the BUY sites on success. -/
def market_buy_record (symbol : String) (qty request_price : ℚ)
    (reason : String) (exch : ExchangeOrder) : MgrOrder :=
  { orderId := exch.orderId, symbol := symbol, side := .BUY, quantity := qty,
    price := buy_fill_price exch request_price, status := exch.status,
    reason := reason, profit := none }

/-- The order record appended by the SELL sites on success
(`place_sell_order` / `place_high_volume_sell`): price from the first fill
or 0, profit computed from that price against the position's entry. -/
def market_sell_record (position : MgrPosition) (reason : String)
    (exch : ExchangeOrder) : MgrOrder :=
  let sell_price := sell_fill_price exch
  { orderId := exch.orderId, symbol := position.symbol, side := .SELL,
    quantity := position.quantity, price := sell_price, status := exch.status,
    reason := reason,
    profit := some ((sell_price - position.entry_price) * position.quantity) }

/-- C3 (amended): at every market-order site the recorded price is the first
fill's price when the response carries fills; with no fills the BUY sites
fall back to the price used for the request, but the SELL sites fall back
to 0 (not the request price — see the counterexample). -/
theorem C3_fill_price_extraction (symbol reason : String)
    (qty request_price : ℚ) (position : MgrPosition) (oid : ℕ) (st : String) :
    (∀ f rest,
      (market_buy_record symbol qty request_price reason
        ⟨oid, st, f :: rest⟩).price = f.price ∧
      (market_sell_record position reason ⟨oid, st, f :: rest⟩).price
        = f.price) ∧
    (market_buy_record symbol qty request_price reason ⟨oid, st, []⟩).price
      = request_price ∧
    (market_sell_record position reason ⟨oid, st, []⟩).price = 0 :=
  ⟨fun _ _ => ⟨rfl, rfl⟩, rfl, rfl⟩

/-- C3 counterexample: a successful sell whose response has no fills records
price 0 rather than the price the request was based on, and the realized
profit is computed from that 0 (entry price 5, quantity 1 gives profit −5). -/
theorem C3_counterexample :
    (market_sell_record ⟨"NEWUSDT", 5, 1, 6, 4⟩ "Take profit"
      ⟨7, "FILLED", []⟩).price = 0 ∧
    (market_sell_record ⟨"NEWUSDT", 5, 1, 6, 4⟩ "Take profit"
      ⟨7, "FILLED", []⟩).profit = some (-5) := by
  constructor
  · rfl
  · show some ((0 - 5) * 1) = some (-5)
    norm_num

/-! ## The buy-gating path (C4) -/

/-- The per-symbol trading rule as cached by `BaseBot.get_symbol_info`:
`stepSize` from `LOT_SIZE`, `tickSize` from `PRICE_FILTER`, `minNotional`
from `MIN_NOTIONAL` (defaulting to 0 when absent). -/
structure SymbolInfo where
  stepSize : ℚ
  tickSize : ℚ
  minNotional : ℚ
deriving DecidableEq

/-- Outcome of the buy-gating logic; the exchange call
(`safe_order(order_market_buy, ...)`) is made exactly in the `submitted`
branch. -/
inductive BuyOutcome
  | skipped_low_balance
  | skipped_no_symbol_info
  | skipped_below_threshold (qty : ℚ)
  | submitted (qty : ℚ)
deriving DecidableEq

/-- Trade gating of `NewListingBot.analyze_new_listing` (balance fraction
`frac = 2/100`) and `HighVolumeBot.place_high_volume_buy` (`frac = 3/100`):
requires `usdt_balance > 10`, skips when `get_symbol_info` returned `None`,
quantizes `balance * frac / price` by `(raw_qty // step) * step`, and
submits only when `qty * price > 10` (a hard-coded `Decimal('10')`
threshold). -/
def market_buy_decision (frac usdt_balance price : ℚ)
    (info : Option SymbolInfo) : BuyOutcome :=
  if usdt_balance > 10 then
    match info with
    | none => .skipped_no_symbol_info
    | some si =>
      let raw_qty := usdt_balance * frac / price
      let qty := (ratTrunc (raw_qty / si.stepSize) : ℚ) * si.stepSize
      if qty * price > 10 then .submitted qty else .skipped_below_threshold qty
  else .skipped_low_balance

/-- C4 (amended): whenever a buy is submitted the quantity is the raw
quantity quantized to the symbol's step size and its notional exceeds the
hard-coded threshold of 10 quote units (NOT the symbol's `minNotional`,
which is fetched but never consulted — see the counterexample); when the
quantized notional is not above 10, or no symbol info is available, no
exchange call is made. -/
theorem C4_buy_gating (frac usdt_balance price : ℚ) (si : SymbolInfo)
    (qty : ℚ) :
    (market_buy_decision frac usdt_balance price (some si) = .submitted qty →
      qty = (ratTrunc (usdt_balance * frac / price / si.stepSize) : ℚ)
          * si.stepSize ∧ qty * price > 10) ∧
    (¬ ((ratTrunc (usdt_balance * frac / price / si.stepSize) : ℚ)
          * si.stepSize * price > 10) →
      market_buy_decision frac usdt_balance price (some si)
        ≠ .submitted qty) ∧
    market_buy_decision frac usdt_balance price none ≠ .submitted qty := by
  refine ⟨?_, ?_, ?_⟩
  · intro h
    by_cases hbal : usdt_balance > 10
    · simp only [market_buy_decision, hbal, if_true] at h
      by_cases hnot : (ratTrunc (usdt_balance * frac / price / si.stepSize) : ℚ)
          * si.stepSize * price > 10
      · simp only [hnot, if_true, BuyOutcome.submitted.injEq] at h
        exact ⟨h.symm, h ▸ hnot⟩
      · simp [hnot] at h
    · simp [market_buy_decision, hbal] at h
  · intro hnot
    by_cases hbal : usdt_balance > 10
    · simp [market_buy_decision, hbal, hnot]
    · simp [market_buy_decision, hbal]
  · by_cases hbal : usdt_balance > 10
    · simp [market_buy_decision, hbal]
    · simp [market_buy_decision, hbal]

/-- Witness for C4: balance 1000, price 1, step 0.001, minNotional 5 —
the submitted quantity 20 is the quantized raw quantity and clears the
hard-coded threshold. -/
theorem C4_buy_gating_witness :
    (20 : ℚ) = (ratTrunc ((1000 : ℚ) * (2 / 100) / 1 / (1 / 1000)) : ℚ)
        * (1 / 1000) ∧ (20 : ℚ) * 1 > 10 :=
  (C4_buy_gating (2 / 100) 1000 1 ⟨1 / 1000, 1 / 100, 5⟩ 20).1
    (by norm_num [market_buy_decision, ratTrunc])

/-- C4 counterexample: with `minNotional = 20` and a quantized notional of
exactly 20, the order is submitted (20 > 10) even though the notional does
NOT exceed the symbol's minimum-notional rule: the buy path checks the
constant 10, not `minNotional`. -/
theorem C4_counterexample :
    market_buy_decision (2 / 100) 1000 1 (some ⟨1 / 1000, 1 / 100, 20⟩)
      = .submitted 20 ∧ ¬ ((20 : ℚ) * 1 > 20) := by
  constructor
  · norm_num [market_buy_decision, ratTrunc]
  · norm_num

/-! ## The scalping bot's closed-candle decision cycle (`trading_bot.py`)

`handle_socket_message` on a closed kline updates the price window, computes
indicators and a signal, then executes: BUY when the signal is BUY with
confidence > 0.6 and no position is held, else SELL when the signal is SELL
with confidence > 0.6 and a position is held, and finally runs
`check_position_management` on the (possibly updated) position list.
The balance-dependent `calculate_quantity` result is passed in as an
explicit `quantity` argument, and the exchange is modelled as accepting the
limit order and echoing its quantity and price. -/

/-- Python `round(x, 2)`: round half to even at two decimal places
(exact-rational model of the float rounding in `place_buy_order` /
`place_sell_order`). -/
def round2 (x : ℚ) : ℚ :=
  let n : ℤ := ⌊x * 100⌋
  let frac : ℚ := x * 100 - n
  if frac < 1 / 2 then (n : ℚ) / 100
  else if frac > 1 / 2 then ((n : ℚ) + 1) / 100
  else if n % 2 = 0 then (n : ℚ) / 100 else ((n : ℚ) + 1) / 100

/-- The two config parameters the cycle reads (`Config.STOP_LOSS`,
`Config.PROFIT_TARGET`; defaults 0.01 and 0.02, overridable by env). -/
structure ScalpCfg where
  STOP_LOSS : ℚ
  PROFIT_TARGET : ℚ
deriving DecidableEq

/-- A scalping-bot position (symbol and entry time omitted: the bot trades
one configured symbol and the timestamp is wall-clock data). -/
structure ScalpPosition where
  entry_price : ℚ
  quantity : ℚ
  stop_loss : ℚ
  take_profit : ℚ
deriving DecidableEq

/-- A scalping-bot order record (id/symbol/status/timestamp omitted). -/
structure ScalpOrder where
  side : Side
  quantity : ℚ
  price : ℚ
  reason : String
  profit : Option ℚ
deriving DecidableEq

/-- The bot state the cycle mutates: `self.positions` and `self.orders`,
both appended at the tail (`positions[-1]`/`pop()` operate on the tail). -/
structure ScalpState where
  positions : List ScalpPosition
  orders : List ScalpOrder
deriving DecidableEq

/-- A strategy signal as produced by `generate_signal`. -/
inductive SigAction
  | BUY
  | SELL
  | HOLD
deriving DecidableEq

/-- Signal record: action, confidence, reason. -/
structure Signal where
  action : SigAction
  confidence : ℚ
  reason : String
deriving DecidableEq

/-- `ScalpingTradingBot.place_buy_order`: rejects a non-positive quantity,
places a limit buy at `round(price * 1.001, 2)`, appends the order record
and a position whose stops are `buy_price * (1 ∓ STOP_LOSS/PROFIT_TARGET)`.
Returns the new state and the method's Boolean result. -/
def place_buy_order (cfg : ScalpCfg) (st : ScalpState) (price : ℚ)
    (reason : String) (quantity : ℚ) : ScalpState × Bool :=
  if quantity ≤ 0 then (st, false)
  else
    let buy_price := round2 (price * (1001 / 1000))
    (⟨st.positions ++ [⟨buy_price, quantity,
        buy_price * (1 - cfg.STOP_LOSS), buy_price * (1 + cfg.PROFIT_TARGET)⟩],
      st.orders ++ [⟨.BUY, quantity, buy_price, reason, none⟩]⟩, true)

/-- `ScalpingTradingBot.place_sell_order`: returns `False` when no position
is open; otherwise sells `positions[-1]` at `round(price * 0.999, 2)`,
records the realized profit against that position's entry, and pops it. -/
def place_sell_order (st : ScalpState) (price : ℚ) (reason : String) :
    ScalpState × Bool :=
  match st.positions.getLast? with
  | none => (st, false)
  | some pos =>
    let sell_price := round2 (price * (999 / 1000))
    (⟨st.positions.dropLast,
      st.orders ++ [⟨.SELL, pos.quantity, sell_price, reason,
        some ((sell_price - pos.entry_price) * pos.quantity)⟩]⟩, true)

/-- `ScalpingTradingBot.check_position_management`: when a position is open,
sells `positions[-1]` if the price is at or below its stop loss, else if at
or above its take profit. -/
def check_position_management (st : ScalpState) (current_price : ℚ) :
    ScalpState :=
  match st.positions.getLast? with
  | none => st
  | some pos =>
    if current_price ≤ pos.stop_loss then
      (place_sell_order st current_price "Stop loss triggered").1
    else if current_price ≥ pos.take_profit then
      (place_sell_order st current_price "Take profit triggered").1
    else st

/-- The BUY gate of `handle_socket_message`:
`signal['action'] == 'BUY' and signal['confidence'] > 0.6 and not self.positions`. -/
abbrev buy_gate (sig : Signal) (st : ScalpState) : Prop :=
  sig.action = .BUY ∧ sig.confidence > 3 / 5 ∧ st.positions = []

/-- The SELL gate of `handle_socket_message`:
`signal['action'] == 'SELL' and signal['confidence'] > 0.6 and self.positions`. -/
abbrev sell_gate (sig : Signal) (st : ScalpState) : Prop :=
  sig.action = .SELL ∧ sig.confidence > 3 / 5 ∧ st.positions ≠ []

/-- The signal-execution step of `handle_socket_message` (the
`if`/`elif` on the generated signal). -/
def execute_signal (cfg : ScalpCfg) (st : ScalpState) (sig : Signal)
    (price quantity : ℚ) : ScalpState :=
  if buy_gate sig st then (place_buy_order cfg st price sig.reason quantity).1
  else if sell_gate sig st then (place_sell_order st price sig.reason).1
  else st

/-- One closed-candle decision cycle of `handle_socket_message` (with
indicators available): execute the signal, then run the stop-loss /
take-profit check at the same price. -/
def handle_closed_candle (cfg : ScalpCfg) (st : ScalpState) (sig : Signal)
    (price quantity : ℚ) : ScalpState :=
  check_position_management (execute_signal cfg st sig price quantity) price

lemma place_sell_positions (st : ScalpState) (price : ℚ) (reason : String) :
    (place_sell_order st price reason).1.positions = st.positions.dropLast := by
  unfold place_sell_order
  cases h : st.positions.getLast? with
  | none =>
    have he : st.positions = [] := List.getLast?_eq_none_iff.mp h
    simp [he]
  | some pos => simp

lemma place_sell_orders_of_last {st : ScalpState} {pos : ScalpPosition}
    (price : ℚ) (reason : String) (h : st.positions.getLast? = some pos) :
    (place_sell_order st price reason).1.orders
      = st.orders ++ [⟨.SELL, pos.quantity, round2 (price * (999 / 1000)),
          reason, some ((round2 (price * (999 / 1000)) - pos.entry_price)
            * pos.quantity)⟩] := by
  unfold place_sell_order
  rw [h]

lemma mgmt_positions (st : ScalpState) (price : ℚ) :
    (check_position_management st price).positions = st.positions ∨
      (check_position_management st price).positions
        = st.positions.dropLast := by
  unfold check_position_management
  cases h : st.positions.getLast? with
  | none => exact Or.inl rfl
  | some pos =>
    dsimp only
    by_cases h1 : price ≤ pos.stop_loss
    · rw [if_pos h1]
      exact Or.inr (place_sell_positions st price _)
    · rw [if_neg h1]
      by_cases h2 : price ≥ pos.take_profit
      · rw [if_pos h2]
        exact Or.inr (place_sell_positions st price _)
      · rw [if_neg h2]
        exact Or.inl rfl

lemma mgmt_orders_mem (st : ScalpState) (price : ℚ) :
    ∀ o ∈ (check_position_management st price).orders,
      o ∈ st.orders ∨ (o.side = .SELL ∧ ∃ p, st.positions.getLast? = some p ∧
        (price ≤ p.stop_loss ∨ price ≥ p.take_profit)) := by
  intro o ho
  unfold check_position_management at ho
  cases h : st.positions.getLast? with
  | none => rw [h] at ho; exact Or.inl ho
  | some pos =>
    rw [h] at ho
    dsimp only at ho
    by_cases h1 : price ≤ pos.stop_loss
    · rw [if_pos h1, place_sell_orders_of_last price _ h] at ho
      rcases List.mem_append.mp ho with h2 | h2
      · exact Or.inl h2
      · have := List.mem_singleton.mp h2
        exact Or.inr ⟨by rw [this], pos, rfl, Or.inl h1⟩
    · rw [if_neg h1] at ho
      by_cases h2 : price ≥ pos.take_profit
      · rw [if_pos h2, place_sell_orders_of_last price _ h] at ho
        rcases List.mem_append.mp ho with h3 | h3
        · exact Or.inl h3
        · have := List.mem_singleton.mp h3
          exact Or.inr ⟨by rw [this], pos, rfl, Or.inr h2⟩
      · rw [if_neg h2] at ho
        exact Or.inl ho

lemma exec_of_not_gates {cfg : ScalpCfg} {st : ScalpState} {sig : Signal}
    {price quantity : ℚ} (hb : ¬ buy_gate sig st) (hs : ¬ sell_gate sig st) :
    execute_signal cfg st sig price quantity = st := by
  unfold execute_signal
  rw [if_neg hb, if_neg hs]

lemma exec_of_sell_gate {cfg : ScalpCfg} {st : ScalpState} {sig : Signal}
    {price quantity : ℚ} (hs : sell_gate sig st) :
    execute_signal cfg st sig price quantity
      = (place_sell_order st price sig.reason).1 := by
  have hb : ¬ buy_gate sig st := by
    intro hb
    exact absurd (hs.1.symm.trans hb.1) (by simp)
  unfold execute_signal
  rw [if_neg hb, if_pos hs]

lemma exec_of_buy_gate {cfg : ScalpCfg} {st : ScalpState} {sig : Signal}
    {price quantity : ℚ} (hb : buy_gate sig st) (hq : 0 < quantity) :
    execute_signal cfg st sig price quantity
      = ⟨st.positions ++ [⟨round2 (price * (1001 / 1000)), quantity,
            round2 (price * (1001 / 1000)) * (1 - cfg.STOP_LOSS),
            round2 (price * (1001 / 1000)) * (1 + cfg.PROFIT_TARGET)⟩],
          st.orders ++ [⟨.BUY, quantity, round2 (price * (1001 / 1000)),
            sig.reason, none⟩]⟩ := by
  unfold execute_signal place_buy_order
  rw [if_pos hb, if_neg (not_le.mpr hq)]

lemma exec_of_buy_gate_nonpos {cfg : ScalpCfg} {st : ScalpState}
    {sig : Signal} {price quantity : ℚ} (hb : buy_gate sig st)
    (hq : quantity ≤ 0) :
    execute_signal cfg st sig price quantity = st := by
  unfold execute_signal place_buy_order
  rw [if_pos hb, if_pos hq]

lemma exec_orders_mem (cfg : ScalpCfg) (st : ScalpState) (sig : Signal)
    (price quantity : ℚ) (hb : ¬ buy_gate sig st) :
    ∀ o ∈ (execute_signal cfg st sig price quantity).orders,
      o ∈ st.orders ∨ o.side = .SELL := by
  intro o ho
  by_cases hs : sell_gate sig st
  · rw [exec_of_sell_gate hs] at ho
    obtain ⟨pos, hpos⟩ : ∃ a, st.positions.getLast? = some a := by
      cases hl : st.positions.getLast? with
      | none => exact absurd (List.getLast?_eq_none_iff.mp hl) hs.2.2
      | some a => exact ⟨a, rfl⟩
    rw [place_sell_orders_of_last price _ hpos] at ho
    rcases List.mem_append.mp ho with h | h
    · exact Or.inl h
    · exact Or.inr (by rw [List.mem_singleton.mp h])
  · rw [exec_of_not_gates hb hs] at ho
    exact Or.inl ho

/-- C6 (amended): in a closed-candle cycle, (i) when the BUY gate
(action BUY, confidence > 0.6, no open position) does not hold, every order
in the resulting history is either pre-existing or a SELL — a buy is placed
only under the gate; (ii) under the BUY gate with a positive sized quantity,
exactly the limit-buy record is appended by the signal step; (iii) under the
SELL gate (action SELL, confidence > 0.6, a position open) the signal step
closes precisely the most-recently-opened position (`positions[-1]`) and
appends its sell record; (iv) every sell record newly appended by the cycle
comes either from the SELL gate or from the stop-loss/take-profit check
firing on the most recent position — the latter can fire regardless of the
signal, which is what falsifies the claim as stated (see counterexample);
(v) every sell removes exactly the last (most recent) position: stack
discipline, not FIFO. -/
theorem C6_decision_execution (cfg : ScalpCfg) (st : ScalpState)
    (sig : Signal) (price quantity : ℚ) :
    (¬ buy_gate sig st →
      ∀ o ∈ (handle_closed_candle cfg st sig price quantity).orders,
        o ∈ st.orders ∨ o.side = .SELL) ∧
    (buy_gate sig st → 0 < quantity →
      (execute_signal cfg st sig price quantity).orders
        = st.orders ++ [⟨.BUY, quantity, round2 (price * (1001 / 1000)),
            sig.reason, none⟩]) ∧
    (sell_gate sig st →
      ∃ pos, st.positions.getLast? = some pos ∧
        (execute_signal cfg st sig price quantity).positions
          = st.positions.dropLast ∧
        (execute_signal cfg st sig price quantity).orders
          = st.orders ++ [⟨.SELL, pos.quantity,
              round2 (price * (999 / 1000)), sig.reason,
              some ((round2 (price * (999 / 1000)) - pos.entry_price)
                * pos.quantity)⟩]) ∧
    (∀ o ∈ (handle_closed_candle cfg st sig price quantity).orders,
      o ∉ st.orders → o.side = .SELL →
      sell_gate sig st ∨
        ∃ p, (execute_signal cfg st sig price quantity).positions.getLast?
            = some p ∧ (price ≤ p.stop_loss ∨ price ≥ p.take_profit)) ∧
    (∀ st2 price2 reason2,
      (place_sell_order st2 price2 reason2).1.positions
        = st2.positions.dropLast) := by
  refine ⟨?_, ?_, ?_, ?_, fun st2 price2 reason2 =>
    place_sell_positions st2 price2 reason2⟩
  · intro hb o ho
    rcases mgmt_orders_mem _ price o ho with h | h
    · exact exec_orders_mem cfg st sig price quantity hb o h
    · exact Or.inr h.1
  · intro hb hq
    rw [exec_of_buy_gate hb hq]
  · intro hs
    obtain ⟨pos, hpos⟩ : ∃ a, st.positions.getLast? = some a := by
      cases hl : st.positions.getLast? with
      | none => exact absurd (List.getLast?_eq_none_iff.mp hl) hs.2.2
      | some a => exact ⟨a, rfl⟩
    refine ⟨pos, hpos, ?_, ?_⟩
    · rw [exec_of_sell_gate hs, place_sell_positions]
    · rw [exec_of_sell_gate hs, place_sell_orders_of_last price _ hpos]
  · intro o ho hnew hsell
    rcases mgmt_orders_mem _ price o ho with h | h
    · by_cases hs : sell_gate sig st
      · exact Or.inl hs
      · by_cases hb : buy_gate sig st
        · by_cases hq : quantity ≤ 0
          · rw [exec_of_buy_gate_nonpos hb hq] at h
            exact absurd h hnew
          · rw [exec_of_buy_gate hb (not_le.mp hq)] at h
            rcases List.mem_append.mp h with h2 | h2
            · exact absurd h2 hnew
            · rw [List.mem_singleton.mp h2] at hsell
              exact absurd hsell (by simp)
        · rw [exec_of_not_gates hb hs] at h
          exact absurd h hnew
    · exact Or.inr h.2

/-- Default config values (`STOP_LOSS = 0.01`, `PROFIT_TARGET = 0.02`). -/
def cfg0 : ScalpCfg := ⟨1 / 100, 2 / 100⟩

/-- A state holding one open position: entry 100, quantity 1, stop loss 95,
take profit 105. -/
def stOne : ScalpState := ⟨[⟨100, 1, 95, 105⟩], []⟩

/-- A SELL signal with confidence 0.7. -/
def sigSell : Signal := ⟨.SELL, 7 / 10, "Range sell"⟩

/-- A HOLD signal with confidence 0. -/
def sigHold : Signal := ⟨.HOLD, 0, "no signal"⟩

/-- Witness for C6: with one open position and a SELL signal of confidence
0.7, the signal step closes exactly that (most recent) position and appends
its sell record. -/
theorem C6_decision_execution_witness :
    ∃ pos, stOne.positions.getLast? = some pos ∧
      (execute_signal cfg0 stOne sigSell 100 1).positions
        = stOne.positions.dropLast ∧
      (execute_signal cfg0 stOne sigSell 100 1).orders
        = stOne.orders ++ [⟨.SELL, pos.quantity, round2 (100 * (999 / 1000)),
            sigSell.reason, some ((round2 (100 * (999 / 1000))
              - pos.entry_price) * pos.quantity)⟩] :=
  (C6_decision_execution cfg0 stOne sigSell 100 1).2.2.1
    ⟨rfl, by norm_num [sigSell], by simp [stOne]⟩

/-- C6 counterexample: the claim says a sell happens only on a SELL signal
with confidence > 0.6, but with a HOLD signal of confidence 0 and the price
(90) at or below the open position's stop loss (95), the cycle still places
a sell order: `check_position_management` runs every closed candle
regardless of the signal. -/
theorem C6_counterexample :
    sigHold.action ≠ .SELL ∧ sigHold.confidence = 0 ∧
    (handle_closed_candle cfg0 stOne sigHold 90 1).orders.map ScalpOrder.side
      = [.SELL] := by
  refine ⟨by simp [sigHold], rfl, ?_⟩
  have hexec : execute_signal cfg0 stOne sigHold 90 1 = stOne :=
    exec_of_not_gates (by simp [sigHold, buy_gate]) (by simp [sigHold, sell_gate])
  unfold handle_closed_candle
  rw [hexec]
  unfold check_position_management
  have hlast : stOne.positions.getLast? = some ⟨100, 1, 95, 105⟩ := rfl
  rw [hlast]
  norm_num
  rw [place_sell_orders_of_last 90 _ hlast]
  simp [stOne]

/-! ## Reachable states of the scalping bot (C7) -/

/-- States reachable from a fresh bot (`positions = []`, `orders = []`) by
closed-candle decision cycles, over every config, signal, price and sized
quantity the environment may produce. -/
inductive ScalpReachable : ScalpState → Prop
  | init : ScalpReachable ⟨[], []⟩
  | step {st : ScalpState} (cfg : ScalpCfg) (sig : Signal)
      (price quantity : ℚ) :
      ScalpReachable st →
      ScalpReachable (handle_closed_candle cfg st sig price quantity)

lemma cycle_positions_le_one (cfg : ScalpCfg) (st : ScalpState) (sig : Signal)
    (price quantity : ℚ) (h : st.positions.length ≤ 1) :
    (handle_closed_candle cfg st sig price quantity).positions.length ≤ 1 := by
  have he : (execute_signal cfg st sig price quantity).positions.length ≤ 1 := by
    by_cases hb : buy_gate sig st
    · by_cases hq : quantity ≤ 0
      · rw [exec_of_buy_gate_nonpos hb hq]; exact h
      · rw [exec_of_buy_gate hb (not_le.mp hq)]
        simp [hb.2.2]
    · by_cases hs : sell_gate sig st
      · rw [exec_of_sell_gate hs, place_sell_positions]
        have := List.length_dropLast st.positions
        omega
      · rw [exec_of_not_gates hb hs]; exact h
  unfold handle_closed_candle
  rcases mgmt_positions (execute_signal cfg st sig price quantity) price
    with hm | hm
  · rw [hm]; exact he
  · rw [hm]
    have := List.length_dropLast
      (execute_signal cfg st sig price quantity).positions
    omega

/-- C7: every state of the scalping bot reachable from an empty position
list by closed-candle decision cycles (buy gating, sell gating,
stop-loss/take-profit management) holds at most one open position. -/
theorem C7_at_most_one_position (st : ScalpState) (h : ScalpReachable st) :
    st.positions.length ≤ 1 := by
  induction h with
  | init => simp
  | step cfg sig price quantity _ ih =>
    exact cycle_positions_le_one cfg _ sig price quantity ih

/-- Witness for C7 at the state reached by one BUY cycle from the initial
state. -/
theorem C7_at_most_one_position_witness :
    (handle_closed_candle cfg0 ⟨[], []⟩ ⟨.BUY, 7 / 10, "Uptrend buy dip"⟩
      100 1).positions.length ≤ 1 :=
  C7_at_most_one_position _
    (ScalpReachable.step cfg0 ⟨.BUY, 7 / 10, "Uptrend buy dip"⟩ 100 1
      ScalpReachable.init)

/-! ## `IntelligentScalpingStrategy.determine_trend` (C5) -/

/-- The indicator snapshot returned by `calculate_indicators` (field order
as in the source's returned dict); `determine_trend` reads the first five
fields. -/
structure Indicators where
  ema_short : ℚ
  ema_long : ℚ
  rsi : ℚ
  macd : ℚ
  macd_signal : ℚ
  macd_hist : ℚ
  bb_upper : ℚ
  bb_middle : ℚ
  bb_lower : ℚ
deriving DecidableEq

/-- The score accumulated by `determine_trend`: each comparison adds its
weight when strictly greater and subtracts it OTHERWISE (the source's
`if ... > ...: += w  else: -= w` — ties count negative). -/
def trend_score (ind : Indicators) : ℚ :=
  (if ind.ema_short > ind.ema_long then (1 : ℚ) else -1)
    + (if ind.macd > ind.macd_signal then 1 else -1)
    + (if ind.rsi > 50 then 1 / 2 else -(1 / 2))

/-- Trend classification. -/
inductive Trend
  | UPTREND
  | DOWNTREND
  | NEUTRAL
deriving DecidableEq

/-- `determine_trend`: `NEUTRAL` on an empty indicator dict, else by the
score thresholds (both boundaries inclusive). -/
def determine_trend (ind : Option Indicators) : Trend :=
  match ind with
  | none => .NEUTRAL
  | some i =>
    if trend_score i ≥ 3 / 2 then .UPTREND
    else if trend_score i ≤ -(3 / 2) then .DOWNTREND
    else .NEUTRAL

/-- The mathematical sign function the spec's formula uses (0 at 0). -/
def sgn (x : ℚ) : ℚ :=
  if x > 0 then 1 else if x < 0 then -1 else 0

/-- The score as the spec words it — written from the spec for comparison
with `trend_score`:
`sign(EMA_short − EMA_long) + sign(MACD − MACD_signal) + 0.5·sign(RSI − 50)`. -/
def claimed_trend_score (ind : Indicators) : ℚ :=
  sgn (ind.ema_short - ind.ema_long) + sgn (ind.macd - ind.macd_signal)
    + (1 / 2) * sgn (ind.rsi - 50)

lemma if_gt_eq_sgn {a b : ℚ} (h : a ≠ b) :
    (if a > b then (1 : ℚ) else -1) = sgn (a - b) := by
  by_cases hab : a > b
  · rw [if_pos hab]
    unfold sgn
    rw [if_pos (sub_pos.mpr hab)]
  · have hlt : a < b := lt_of_le_of_ne (not_lt.mp hab) h
    rw [if_neg hab]
    unfold sgn
    rw [if_neg (not_lt.mpr (le_of_lt (sub_neg.mpr hlt))),
      if_pos (sub_neg.mpr hlt)]

/-- C5 (amended): the accumulated score agrees with the spec's sign formula
whenever no comparison ties (at a tie the source contributes the negative
weight where `sign` gives 0 — see the counterexample), and the
classification is UPTREND exactly when score ≥ 1.5, DOWNTREND exactly when
score ≤ −1.5, NEUTRAL otherwise, boundaries inclusive. -/
theorem C5_trend_classification (i : Indicators) :
    (i.ema_short ≠ i.ema_long → i.macd ≠ i.macd_signal → i.rsi ≠ 50 →
      trend_score i = claimed_trend_score i) ∧
    (determine_trend (some i) = .UPTREND ↔ trend_score i ≥ 3 / 2) ∧
    (determine_trend (some i) = .DOWNTREND ↔ trend_score i ≤ -(3 / 2)) ∧
    (determine_trend (some i) = .NEUTRAL ↔
      ¬ trend_score i ≥ 3 / 2 ∧ ¬ trend_score i ≤ -(3 / 2)) := by
  refine ⟨?_, ?_, ?_, ?_⟩
  · intro h1 h2 h3
    unfold trend_score claimed_trend_score
    rw [if_gt_eq_sgn h1, if_gt_eq_sgn h2,
      show (if i.rsi > 50 then (1 : ℚ) / 2 else -(1 / 2))
          = (1 / 2) * (if i.rsi > (50 : ℚ) then (1 : ℚ) else -1) by
        split <;> norm_num,
      if_gt_eq_sgn h3]
  · unfold determine_trend
    by_cases hup : trend_score i ≥ 3 / 2
    · simp [hup]
    · by_cases hdn : trend_score i ≤ -(3 / 2)
      · simp [hup, hdn]
      · simp [hup, hdn]
  · unfold determine_trend
    by_cases hup : trend_score i ≥ 3 / 2
    · have : ¬ trend_score i ≤ -(3 / 2) := by linarith
      simp [hup, this]
    · by_cases hdn : trend_score i ≤ -(3 / 2)
      · simp [hup, hdn]
      · simp [hup, hdn]
  · unfold determine_trend
    by_cases hup : trend_score i ≥ 3 / 2
    · simp [hup]
    · by_cases hdn : trend_score i ≤ -(3 / 2)
      · simp [hup, hdn]
      · simp [hup, hdn]

/-- An all-ties snapshot: EMAs equal, MACD equal to its signal, RSI at 50. -/
def tieInd : Indicators := ⟨1, 1, 50, 0, 0, 0, 0, 0, 0⟩

/-- A tie-free uptrend snapshot: EMA_short > EMA_long, MACD > signal,
RSI = 60. -/
def upInd : Indicators := ⟨2, 1, 60, 1, 0, 0, 0, 0, 0⟩

/-- Witness for C5 at a tie-free snapshot: the source's score agrees with
the spec's sign formula there. -/
theorem C5_trend_classification_witness :
    trend_score upInd = claimed_trend_score upInd :=
  (C5_trend_classification upInd).1 (by norm_num [upInd]) (by norm_num [upInd])
    (by norm_num [upInd])

/-- C5 counterexample: with every comparison tied the source's score is
−2.5 (each tie contributes the negative weight) while the claimed sign
formula gives 0; the code classifies DOWNTREND where the claimed formula
would give NEUTRAL. -/
theorem C5_counterexample :
    trend_score tieInd = -(5 / 2) ∧ claimed_trend_score tieInd = 0 ∧
    determine_trend (some tieInd) = .DOWNTREND := by
  refine ⟨?_, ?_, ?_⟩ <;>
    norm_num [trend_score, claimed_trend_score, sgn, determine_trend, tieInd]

/-! ## `IntelligentScalpingStrategy.update_price_data` (C9) -/

/-- One entry of `self.price_data`: `{'timestamp': ..., 'close': ...}`. -/
structure PricePoint where
  timestamp : ℤ
  close : ℚ
deriving DecidableEq

/-- `update_price_data`: append the new point; if the window now has more
than 100 entries, keep only `price_data[-50:]` (the most recent 50). -/
def update_price_data (data : List PricePoint) (p : PricePoint) :
    List PricePoint :=
  if (data ++ [p]).length > 100 then
    (data ++ [p]).drop ((data ++ [p]).length - 50)
  else data ++ [p]

/-- C9: after every `update_price_data` call the window holds at most 100
entries; on exceeding the cap of 100 it is cut to exactly the most-recent
50; and the result is always a suffix of the appended sequence — the
retained entries are the most recent ones in arrival order, oldest
discarded first. -/
theorem C9_price_window_bounded (data : List PricePoint) (p : PricePoint) :
    (update_price_data data p).length ≤ 100 ∧
    ((data ++ [p]).length > 100 →
      update_price_data data p
        = (data ++ [p]).drop ((data ++ [p]).length - 50) ∧
      (update_price_data data p).length = 50) ∧
    update_price_data data p <:+ data ++ [p] := by
  refine ⟨?_, ?_, ?_⟩
  · unfold update_price_data
    by_cases h : (data ++ [p]).length > 100
    · rw [if_pos h, List.length_drop]
      omega
    · rw [if_neg h]
      omega
  · intro h
    refine ⟨by unfold update_price_data; rw [if_pos h], ?_⟩
    unfold update_price_data
    rw [if_pos h, List.length_drop]
    omega
  · unfold update_price_data
    by_cases h : (data ++ [p]).length > 100
    · rw [if_pos h]
      exact List.drop_suffix _ _
    · rw [if_neg h]

/-- The zero price point, for concrete windows. -/
def pt0 : PricePoint := ⟨0, 0⟩

/-- Witness for C9 at a full window of 100 entries: the 101-long appended
sequence is cut to its most-recent 50. -/
theorem C9_price_window_bounded_witness :
    update_price_data (List.replicate 100 pt0) pt0
      = (List.replicate 100 pt0 ++ [pt0]).drop
          ((List.replicate 100 pt0 ++ [pt0]).length - 50) ∧
    (update_price_data (List.replicate 100 pt0) pt0).length = 50 :=
  (C9_price_window_bounded (List.replicate 100 pt0) pt0).2.1 (by simp)

/-! ## `get_stats` (C10) -/

/-- An order record as read by `get_stats`: only `status` and the optional
`profit` (`o.get('profit', 0)`) matter. -/
structure StatOrder where
  status : String
  profit : Option ℚ
deriving DecidableEq

/-- The dict returned by `BaseBot.get_stats` /
`ScalpingTradingBot.get_stats` (the bot name and symbol entries omitted). -/
structure BotStats where
  total_trades : ℕ
  winning_trades : ℕ
  total_profit : ℚ
  win_rate : ℚ
  current_positions : ℕ
  running : Bool
deriving DecidableEq

/-- `get_stats`: filled orders are those with status `FILLED`; the win rate
divides winners by total only when the total is positive, else 0. -/
def get_stats (orders : List StatOrder) (positions_count : ℕ)
    (running : Bool) : BotStats :=
  let filled := orders.filter (fun o => o.status = "FILLED")
  { total_trades := filled.length,
    winning_trades := (filled.filter (fun o => o.profit.getD 0 > 0)).length,
    total_profit := (filled.map (fun o => o.profit.getD 0)).sum,
    win_rate :=
      if filled.length > 0 then
        ((filled.filter (fun o => o.profit.getD 0 > 0)).length : ℚ)
          / filled.length
      else 0,
    current_positions := positions_count,
    running := running }

/-- C10: with no FILLED order in the history, `get_stats` returns all-zero
trade statistics and a win rate of 0 — the division by the trade count is
guarded by the `total_trades > 0` test and never evaluated. -/
theorem C10_stats_zero_guard (orders : List StatOrder) (positions_count : ℕ)
    (running : Bool) (h : ∀ o ∈ orders, o.status ≠ "FILLED") :
    get_stats orders positions_count running
      = ⟨0, 0, 0, 0, positions_count, running⟩ := by
  have hfil : orders.filter (fun o => o.status = "FILLED") = [] := by
    rw [List.filter_eq_nil_iff]
    intro o ho
    simpa using h o ho
  unfold get_stats
  rw [hfil]
  simp

/-- Witness for C10: a history holding one PENDING order yields zero
trades, zero profit and win rate 0. -/
theorem C10_stats_zero_guard_witness :
    get_stats [⟨"PENDING", none⟩] 2 true = ⟨0, 0, 0, 0, 2, true⟩ :=
  C10_stats_zero_guard [⟨"PENDING", none⟩] 2 true
    (by intro o ho; rw [List.mem_singleton.mp ho]; simp)

end Mina
